import Mathlib

/-!
Verification development for the daily-plan document core (daily_tools.py).

The Python source treats a markdown file as a list of lines and derives
sections (## headings), subsections (### headings) and checklist tasks
(- [m] text, with m one of six status marks) from them.  Below, each
Python function is embedded as an executable Lean definition over
List String; machine-independent string processing (regexes, strip,
lower) is spelled out character by character.  Python's \s is modelled
by the ASCII whitespace characters, which are the only whitespace the
documents use.
-/

namespace Daily

/-- ASCII whitespace, modelling Python's regex class \s and str.strip()
on the documents in question. -/
def isWsChar (c : Char) : Bool :=
  c = ' ' || c = '\t' || c = '\n' || c = '\r' || c = Char.ofNat 11 || c = Char.ofNat 12

/-- ASCII lowercasing, modelling str.lower() on the mark strings
(whose only cased character is X). -/
def asciiLower (c : Char) : Char :=
  if 'A' ≤ c ∧ c ≤ 'Z' then Char.ofNat (c.toNat + 32) else c

/-- str.lower() on a whole string. -/
def strLower (s : String) : String :=
  String.mk (s.data.map asciiLower)

/-- Left strip of whitespace (Python lstrip / the regex prefix \s*). -/
def wsDropL (cs : List Char) : List Char :=
  cs.dropWhile isWsChar

/-- Python str.strip(): drop whitespace from both ends. -/
def pyStrip (s : String) : String :=
  String.mk (((s.data.dropWhile isWsChar).reverse.dropWhile isWsChar).reverse)

/-- The six bracket-interior characters accepted by
TASK_MARK_RE = ^\s*-\s*(\[(?: |x|~|!|>|\?)\])\s*(.*)$ with re.IGNORECASE
(the flag additionally lets an upper-case X match). -/
def isMarkChar (c : Char) : Bool :=
  c = ' ' || c = 'x' || c = 'X' || c = '~' || c = '!' || c = '>' || c = '?'

/-- The part of TASK_MARK_RE after the dash: \s*(\[M\])\s*(.*)$ applied
to the remaining characters. -/
def parseAfterDash (r1 : List Char) : Option (String × String) :=
  match r1.dropWhile isWsChar with
  | '[' :: m :: ']' :: r2 =>
    if isMarkChar m then
      some (String.mk ['[', m, ']'], String.mk (r2.dropWhile isWsChar))
    else none
  | _ => none

/-- TASK_MARK_RE.match(line): returns (group 1, group 2) = (the bracketed
mark as written, the text after the bracket with its leading whitespace
consumed by the greedy \s*). -/
def matchTask (line : String) : Option (String × String) :=
  match line.data.dropWhile isWsChar with
  | '-' :: r1 => parseAfterDash r1
  | _ => none

/-- TASK_STATUS_MAP from daily_tools.py. -/
def TASK_STATUS_MAP : List (String × String) :=
  [("[ ]", "todo"), ("[x]", "done"), ("[~]", "partial"),
   ("[!]", "cancelled"), ("[>]", "in_progress"), ("[?]", "need_help")]

/-- STATUS_TO_MARK = the inverted dictionary. -/
def STATUS_TO_MARK : List (String × String) :=
  [("todo", "[ ]"), ("done", "[x]"), ("partial", "[~]"),
   ("cancelled", "[!]"), ("in_progress", "[>]"), ("need_help", "[?]")]

/-- TASK_STATUS_MAP.get(mark.lower(), 'todo') as used at lines 176 and 289. -/
def statusForMark (mark : String) : String :=
  (TASK_STATUS_MAP.lookup (strLower mark)).getD "todo"

/-- STATUS_TO_MARK.get(status, '[ ]') as used at lines 231 and 252. -/
def markForStatus (status : String) : String :=
  (STATUS_TO_MARK.lookup status).getD "[ ]"

/-- The parsed task text of a line: group(2).strip() when the line
matches TASK_MARK_RE (as computed in _iter_tasks and _find_task_line). -/
def taskText (line : String) : Option String :=
  match matchTask line with
  | some (_, g2) => some (pyStrip g2)
  | none => none

/-- H1_RE = ^#\s+ : one hash then at least one whitespace character. -/
def isH1 (s : String) : Bool :=
  match s.data with
  | '#' :: c :: _ => isWsChar c
  | _ => false

/-- H2_RE = ^##\s+ : two hashes then at least one whitespace character
(a third hash is not whitespace, so ### lines do not match). -/
def isH2 (s : String) : Bool :=
  match s.data with
  | '#' :: '#' :: c :: _ => isWsChar c
  | _ => false

/-- H3_RE = ^###\s+ . -/
def isH3 (s : String) : Bool :=
  match s.data with
  | '#' :: '#' :: '#' :: c :: _ => isWsChar c
  | _ => false

/-- line.strip().lstrip('#').strip(), the heading-title normalization. -/
def stripHashTitle (line : String) : String :=
  pyStrip (String.mk ((pyStrip line).data.dropWhile (fun c => c = '#')))

/-- The Section dataclass.  The Python field named end is called endIdx
here because end is a Lean keyword. -/
structure Section where
  title : String
  start : Nat
  endIdx : Nat
deriving Repr, DecidableEq

/-- The loop body of _parse_sections: walk the remaining lines carrying
the absolute index i, the currently open section and the list of closed
sections; total is len(lines), used for the provisional end index. -/
def parseSectionsAux (total : Nat) : List String → Nat → Option Section → List Section → List Section
  | [], _, cur, acc =>
    match cur with
    | some c => acc ++ [c]
    | none => acc
  | line :: rest, i, cur, acc =>
    if isH2 line then
      let acc2 := match cur with
        | some c => acc ++ [{ c with endIdx := i - 1 }]
        | none => acc
      parseSectionsAux total rest (i + 1) (some ⟨stripHashTitle line, i, total - 1⟩) acc2
    else
      parseSectionsAux total rest (i + 1) cur acc

/-- _parse_sections(lines). -/
def parseSections (lines : List String) : List Section :=
  parseSectionsAux lines.length lines 0 none []

/-- Python str.startswith(pre) (s starts with pre), spelled out on the
character lists. -/
def charsLead : List Char → List Char → Bool
  | [], _ => true
  | _ :: _, [] => false
  | a :: as, b :: bs => a = b && charsLead as bs

/-- sec.title.startswith(title_pre). -/
def strLeads (s pre : String) : Bool :=
  charsLead pre.data s.data

/-- The scan over the parsed sections inside _section_range. -/
def sectionRangeAux (titlePre : String) : List Section → Option (Nat × Nat)
  | [] => none
  | sec :: rest =>
    if strLeads sec.title titlePre then some (sec.start, sec.endIdx)
    else sectionRangeAux titlePre rest

/-- _section_range(lines, title_prefix): the (start, end) range of the
first section whose title starts with the given text. -/
def sectionRange (lines : List String) (titlePre : String) : Option (Nat × Nat) :=
  sectionRangeAux titlePre (parseSections lines)

/-- The TaskItem dataclass.  The Python field named section is called
sectionTitle here because section is a Lean keyword. -/
structure TaskItem where
  line_index : Nat
  raw : String
  status_mark : String
  status : String
  text : String
  sectionTitle : String
  subsection : Option String
deriving Repr, DecidableEq

/-- The loop body of _iter_tasks over the explicit index list
range(start, end+1), carrying the current ### subsection label. -/
def iterTasksAux (lines : List String) (parent : String) : List Nat → Option String → List TaskItem
  | [], _ => []
  | idx :: rest, curSub =>
    let line := lines.getD idx ""
    if isH3 line then iterTasksAux lines parent rest (some (stripHashTitle line))
    else
      match matchTask line with
      | some (mark, g2) =>
        { line_index := idx, raw := line, status_mark := mark,
          status := statusForMark mark, text := pyStrip g2,
          sectionTitle := parent, subsection := curSub } :: iterTasksAux lines parent rest curSub
      | none => iterTasksAux lines parent rest curSub

/-- _iter_tasks(lines, start, end, parent_title). -/
def iterTasks (lines : List String) (start endI : Nat) (parent : String) : List TaskItem :=
  iterTasksAux lines parent (List.range' start (endI + 1 - start)) none

/-- One element of the sections payload built by read_structured. -/
structure SectionPayload where
  title : String
  range : Nat × Nat
  tasks : List TaskItem
deriving Repr, DecidableEq

/-- read_structured on an existing document: every parsed section with
its nested TaskItems.  The file-existence wrapper is modelled by the
callers below. -/
def read_structured (lines : List String) : List SectionPayload :=
  (parseSections lines).map (fun sec =>
    { title := sec.title, range := (sec.start, sec.endIdx),
      tasks := iterTasks lines sec.start sec.endIdx sec.title })

/-- The loop of _find_task_line, carrying the absolute index of the head. -/
def findTaskLineAux (q : String) : List String → Nat → Option Nat
  | [], _ => none
  | l :: rest, i =>
    if taskText l = some q then some i else findTaskLineAux q rest (i + 1)

/-- _find_task_line(lines, task_text): index of the first line whose
parsed task text equals the query. -/
def findTaskLine (lines : List String) (q : String) : Option Nat :=
  findTaskLineAux q lines 0

/-- Outcome of set_task_status. -/
inductive SetResult where
  | notFound
  | taskNotFound
  | updated (line : Nat)
deriving Repr, DecidableEq

/-- set_task_status(task_text, status, path).  The file is modelled as
Option (List String) (none = absent); the returned pair is (result,
file state after the call).  The final match arm is unreachable: the
line found by _find_task_line matches TASK_MARK_RE by construction
(in Python a failure there would raise, not return). -/
def set_task_status (file : Option (List String)) (q status : String) :
    SetResult × Option (List String) :=
  match file with
  | none => (SetResult.notFound, none)
  | some lines =>
    match findTaskLine lines q with
    | none => (SetResult.taskNotFound, some lines)
    | some idx =>
      match matchTask (lines.getD idx "") with
      | some (_, g2) =>
        (SetResult.updated idx,
         some (lines.set idx ("- " ++ markForStatus status ++ " " ++ g2)))
      | none => (SetResult.taskNotFound, some lines)

/-- list.insert(pos, x): Python inserts before position pos and clamps
past-the-end positions to an append. -/
def pyInsert (lines : List String) (pos : Nat) (x : String) : List String :=
  lines.take pos ++ x :: lines.drop pos

/-- First index in the given order whose line is non-blank after strip
(Python truthiness of lines[i].strip()). -/
def firstTruthy (lines : List String) : List Nat → Option Nat
  | [] => none
  | i :: rest =>
    if pyStrip (lines.getD i "") ≠ "" then some i else firstTruthy lines rest

/-- The insertion-point computation shared by add_task and append_note:
insert_at = end, then for i in range(end, start, -1) take the first
non-blank line and insert after it. -/
def insertPos (lines : List String) (st en : Nat) : Nat :=
  match firstTruthy lines (List.range' (st + 1) (en - st)).reverse with
  | some i => i + 1
  | none => en

/-- Outcome of add_task. -/
inductive AddResult where
  | notFound
  | sectionNotFound
  | inserted (line : Nat)
deriving Repr, DecidableEq

/-- add_task(section_title_prefix, task_text, status, path), as
(result, file state after the call). -/
def add_task (file : Option (List String)) (secPre taskT status : String) :
    AddResult × Option (List String) :=
  match file with
  | none => (AddResult.notFound, none)
  | some lines =>
    match sectionRange lines secPre with
    | none => (AddResult.sectionNotFound, some lines)
    | some (st, en) =>
      let p := insertPos lines st en
      (AddResult.inserted p,
       some (pyInsert lines p ("- " ++ markForStatus status ++ " " ++ taskT)))

/-- Outcome of append_note. -/
inductive NoteResult where
  | notFound
  | sectionNotFound
  | appended (line : Nat)
deriving Repr, DecidableEq

/-- append_note(section_title_prefix, note_line, path), as (result,
file state after the call). -/
def append_note (file : Option (List String)) (secPre note : String) :
    NoteResult × Option (List String) :=
  match file with
  | none => (NoteResult.notFound, none)
  | some lines =>
    match sectionRange lines secPre with
    | none => (NoteResult.sectionNotFound, some lines)
    | some (st, en) =>
      let p := insertPos lines st en
      (NoteResult.appended p, some (pyInsert lines p ("- " ++ note)))

/-- FALLBACK_TEMPLATE.splitlines() from daily_tools.py, line by line. -/
def FALLBACK_TEMPLATE_LINES : List String :=
  ["# 📅 今日计划",
   "",
   "**☀️ 天气：晴朗，温度 25~32°C，中国·上海**",
   "",
   "## 🎯 今日重点任务",
   "",
   "### 学习与成长",
   "- [ ] 示例任务：阅读30分钟",
   "",
   "## 🌞 生活安排",
   "",
   "### 用餐时间",
   "- [ ] 早餐 (8:00 - 8:30)",
   "- [ ] 午餐 (12:00 - 12:30)",
   "- [ ] 晚餐 (18:00 - 18:30)",
   "",
   "## 🌙 晚间总结",
   "",
   "### 📝 今日总结 (21:00 - 21:30)",
   "- [ ] 回顾今日完成情况",
   "",
   "### 📋 明日计划 (21:30 - 22:00)",
   "- [ ] 制定明日计划",
   "",
   "## 📊 今日目标",
   "",
   "### 🎯 主要目标",
   "- 保持良好作息",
   "",
   "## 💡 学习笔记",
   ""]

/-- The selection loop of rollover_incomplete: the stripped texts of
all lines matching TASK_MARK_RE whose status is todo, partial or
in_progress, in document order. -/
def rolloverTexts (lines : List String) : List String :=
  lines.filterMap (fun line =>
    match matchTask line with
    | some (mark, g2) =>
      let status := statusForMark mark
      if status = "todo" || status = "partial" || status = "in_progress" then
        some (pyStrip g2)
      else none
    | none => none)

/-- The destination index in tomorrow's file: after the end of the
first section whose title starts with the emoji marker, else after the
first section starting with the literal marker, else the end of the
document (rng falsy). -/
def rolloverDest (base : List String) : Nat :=
  match sectionRange base "🎯" with
  | some rng => rng.2 + 1
  | none =>
    match sectionRange base "今日重点任务" with
    | some rng => rng.2 + 1
    | none => base.length

/-- The insertion loop of rollover_incomplete: new_lines.insert(insert_at, ...)
with insert_at incremented after every task. -/
def insertAllFrom (lines : List String) (pos : Nat) : List String → List String
  | [] => lines
  | t :: ts => insertAllFrom (pyInsert lines pos t) (pos + 1) ts

/-- The two calendar files touched by rollover_incomplete: the source
(today's) file and tomorrow's file, each Option lines (none = absent). -/
structure DayFiles where
  today : Option (List String)
  tomorrow : Option (List String)
deriving Repr, DecidableEq

/-- Result record of rollover_incomplete; errorFlag models the
'error': 'not_found' key of the early return. -/
structure RollResult where
  moved : Nat
  errorFlag : Bool
deriving Repr, DecidableEq

/-- rollover_incomplete(path): collect incomplete tasks from the
source file, create tomorrow's file from the fallback template when it
is absent, add each task as a fresh '- [ ] text' line at the
destination index, and write only tomorrow's file. -/
def rollover_incomplete (s : DayFiles) : RollResult × DayFiles :=
  match s.today with
  | none => ({ moved := 0, errorFlag := true }, s)
  | some lines =>
    let texts := rolloverTexts lines
    let base := match s.tomorrow with
      | some b => b
      | none => FALLBACK_TEMPLATE_LINES
    let newT := insertAllFrom base (rolloverDest base) (texts.map (fun t => "- [ ] " ++ t))
    ({ moved := texts.length, errorFlag := false },
     { today := s.today, tomorrow := some newT })

/-- Python str.endswith(suf), spelled out on reversed character lists. -/
def strTrails (s suf : String) : Bool :=
  charsLead suf.data.reverse s.data.reverse

/-- max-by-filename over the month directory listing: sorted(names)[-1],
with ties impossible in a directory; among equal names the later entry
is kept, matching a stable ascending sort. -/
def pickLatest : List (String × List String) → Option (String × List String)
  | [] => none
  | x :: rest =>
    match pickLatest rest with
    | none => some x
    | some y => if strLeads x.1 y.1 && strLeads y.1 x.1 then some y
                else if decide (x.1 < y.1) then some y else some x

/-- The filesystem state seen by create_today_from_template: today's
file plus the month directory listing used by _guess_template_source. -/
structure BootFS where
  todayFile : Option (List String)
  monthFiles : List (String × List String)
deriving Repr, DecidableEq

/-- _guess_template_source: the lexicographically largest .md file of
the month directory, if any. -/
def guessTemplateSource (fs : BootFS) : Option (String × List String) :=
  pickLatest (fs.monthFiles.filter (fun nf => strTrails nf.1 ".md"))

/-- Result record of create_today_from_template. -/
structure CreateResult where
  created : Bool
  reason : Option String
  source : Option String
deriving Repr, DecidableEq

/-- create_today_from_template(force): no-op with reason 'exists' when
the file exists and force is false; otherwise copy the donor file
(normalizing a level-1 first line to the fixed title) or write the
fallback template. -/
def create_today_from_template (force : Bool) (fs : BootFS) : CreateResult × BootFS :=
  match fs.todayFile, force with
  | some _, false =>
    ({ created := false, reason := some "exists", source := none }, fs)
  | _, _ =>
    match guessTemplateSource fs with
    | some (name, srcLines) =>
      let ls := match srcLines with
        | [] => []
        | l0 :: rest => if isH1 l0 then "# 📅 今日计划" :: rest else l0 :: rest
      ({ created := true, reason := none, source := some name },
       { fs with todayFile := some ls })
    | none =>
      ({ created := true, reason := none, source := some "fallback" },
       { fs with todayFile := some FALLBACK_TEMPLATE_LINES })

/-! ### Theorems -/

/-- The six marks, in table order. -/
def theMarks : List String := ["[ ]", "[x]", "[~]", "[!]", "[>]", "[?]"]

/-- The six statuses, in table order. -/
def theStatuses : List String :=
  ["todo", "done", "partial", "cancelled", "in_progress", "need_help"]

/-- C6: the status/mark table is a bijection over its six entries —
converting each mark to its status and back gives the mark, converting
each status to its mark and back gives the status — and every status
outside the six yields the todo mark rather than an error. -/
theorem claim_c6_status_mark_bijection :
    (∀ m ∈ theMarks, markForStatus (statusForMark m) = m) ∧
    (∀ st ∈ theStatuses, statusForMark (markForStatus st) = st) ∧
    (∀ st : String, st ∉ theStatuses → markForStatus st = "[ ]") := by
  refine ⟨by decide, by decide, ?_⟩
  intro st h
  simp only [theStatuses, List.mem_cons, List.not_mem_nil, or_false, not_or] at h
  obtain ⟨h1, h2, h3, h4, h5, h6⟩ := h
  have e1 : (st == "todo") = false := beq_eq_false_iff_ne.mpr h1
  have e2 : (st == "done") = false := beq_eq_false_iff_ne.mpr h2
  have e3 : (st == "partial") = false := beq_eq_false_iff_ne.mpr h3
  have e4 : (st == "cancelled") = false := beq_eq_false_iff_ne.mpr h4
  have e5 : (st == "in_progress") = false := beq_eq_false_iff_ne.mpr h5
  have e6 : (st == "need_help") = false := beq_eq_false_iff_ne.mpr h6
  simp [markForStatus, STATUS_TO_MARK, List.lookup, e1, e2, e3, e4, e5, e6]

/-- Witness for C6 at concrete entries and a concrete unknown status. -/
theorem claim_c6_witness :
    markForStatus (statusForMark "[>]") = "[>]" ∧
    statusForMark (markForStatus "need_help") = "need_help" ∧
    markForStatus "bogus" = "[ ]" :=
  ⟨claim_c6_status_mark_bijection.1 "[>]" (by decide),
   claim_c6_status_mark_bijection.2.1 "need_help" (by decide),
   claim_c6_status_mark_bijection.2.2 "bogus" (by decide)⟩

/-- C8: when today's file already exists, create with force=false
returns created=false with reason exists and leaves the filesystem
state — in particular the file's contents — unchanged. -/
theorem claim_c8_noop_create (fs : BootFS) (doc : List String)
    (h : fs.todayFile = some doc) :
    create_today_from_template false fs =
      ({ created := false, reason := some "exists", source := none }, fs) := by
  obtain ⟨tf, mf⟩ := fs
  cases tf with
  | none => simp at h
  | some d => rfl

/-- Witness for C8 at a concrete filesystem state. -/
theorem claim_c8_witness :
    create_today_from_template false ⟨some ["# x"], [("01.md", ["a"])]⟩ =
      ({ created := false, reason := some "exists", source := none },
       ⟨some ["# x"], [("01.md", ["a"])]⟩) :=
  claim_c8_noop_create _ ["# x"] rfl

/-! ### List splicing helper lemmas -/

theorem pyInsert_length (l : List String) (p : Nat) (x : String) :
    (pyInsert l p x).length = l.length + 1 := by
  simp only [pyInsert, List.length_append, List.length_take, List.length_cons,
    List.length_drop]
  omega

theorem eraseIdx_append_cons {α : Type} :
    ∀ (as : List α) (t : α) (bs : List α),
      (as ++ t :: bs).eraseIdx as.length = as ++ bs
  | [], _, _ => rfl
  | a :: as, t, bs => by
    simp only [List.cons_append, List.length_cons, List.eraseIdx_cons_succ]
    rw [eraseIdx_append_cons as t bs]

theorem pyInsert_eraseIdx (l : List String) (p : Nat) (x : String) (hp : p ≤ l.length) :
    (pyInsert l p x).eraseIdx p = l := by
  have hl : (l.take p).length = p := by
    simp [List.length_take]
    omega
  have hkey := eraseIdx_append_cons (l.take p) x (l.drop p)
  rw [hl] at hkey
  show (l.take p ++ x :: l.drop p).eraseIdx p = l
  rw [hkey, List.take_append_drop]

theorem take_append_cons_succ {α : Type} :
    ∀ (as : List α) (t : α) (bs : List α),
      (as ++ t :: bs).take (as.length + 1) = as ++ [t]
  | [], _, _ => rfl
  | a :: as, t, bs => by
    simp only [List.cons_append, List.length_cons, List.take_succ_cons]
    rw [take_append_cons_succ as t bs]

theorem drop_append_cons_succ {α : Type} :
    ∀ (as : List α) (t : α) (bs : List α),
      (as ++ t :: bs).drop (as.length + 1) = bs
  | [], _, _ => rfl
  | a :: as, t, bs => by
    simp only [List.cons_append, List.length_cons, List.drop_succ_cons]
    exact drop_append_cons_succ as t bs

/-- The sequential insert loop of rollover equals a single splice at
the starting position, provided the position is inside the list. -/
theorem insertAllFrom_eq :
    ∀ (ts : List String) (l : List String) (p : Nat), p ≤ l.length →
      insertAllFrom l p ts = l.take p ++ ts ++ l.drop p
  | [], l, p, _ => by simp [insertAllFrom]
  | t :: ts, l, p, hp => by
    have hl : (l.take p).length = p := by
      simp [List.length_take]
      omega
    have hlen : (pyInsert l p t).length = l.length + 1 := pyInsert_length l p t
    have h1 := take_append_cons_succ (l.take p) t (l.drop p)
    have h2 := drop_append_cons_succ (l.take p) t (l.drop p)
    rw [hl] at h1 h2
    rw [insertAllFrom, insertAllFrom_eq ts (pyInsert l p t) (p + 1) (by omega)]
    show (l.take p ++ t :: l.drop p).take (p + 1) ++ ts ++
        (l.take p ++ t :: l.drop p).drop (p + 1) = _
    rw [h1, h2]
    simp

/-! ### find_task helper lemmas -/

theorem findTaskLineAux_some_spec (q : String) :
    ∀ (ls : List String) (i0 i : Nat), findTaskLineAux q ls i0 = some i →
      i0 ≤ i ∧ i - i0 < ls.length ∧ taskText (ls.getD (i - i0) "") = some q ∧
        ∀ j, j < i - i0 → taskText (ls.getD j "") ≠ some q := by
  intro ls
  induction ls with
  | nil => intro i0 i h; simp [findTaskLineAux] at h
  | cons l rest ih =>
    intro i0 i h
    rw [findTaskLineAux] at h
    by_cases hl : taskText l = some q
    · rw [if_pos hl] at h
      obtain rfl : i0 = i := Option.some_inj.mp h
      refine ⟨Nat.le_refl _, ?_, ?_, ?_⟩
      · simp [Nat.sub_self]
      · simpa [Nat.sub_self] using hl
      · intro j hj; omega
    · rw [if_neg hl] at h
      obtain ⟨h1, h2, h3, h4⟩ := ih (i0 + 1) i h
      have hsub : i - i0 = (i - (i0 + 1)) + 1 := by omega
      refine ⟨by omega, by simp [List.length_cons]; omega, ?_, ?_⟩
      · rw [hsub]; simpa using h3
      · intro j hj
        cases j with
        | zero => simpa using hl
        | succ j' =>
          have : j' < i - (i0 + 1) := by omega
          simpa using h4 j' this

theorem findTaskLineAux_exists_le (q : String) :
    ∀ (ls : List String) (i0 j : Nat), j < ls.length →
      taskText (ls.getD j "") = some q →
      ∃ i, findTaskLineAux q ls i0 = some i ∧ i ≤ i0 + j := by
  intro ls
  induction ls with
  | nil => intro i0 j h; simp at h
  | cons l rest ih =>
    intro i0 j hj hq
    rw [findTaskLineAux]
    by_cases hl : taskText l = some q
    · exact ⟨i0, by rw [if_pos hl], by omega⟩
    · rw [if_neg hl]
      cases j with
      | zero => exact absurd (by simpa using hq) hl
      | succ j' =>
        obtain ⟨i, hi, hle⟩ := ih (i0 + 1) j' (by simpa using hj) (by simpa using hq)
        exact ⟨i, hi, by omega⟩

/-- The first-match characterization of _find_task_line. -/
theorem findTaskLine_some_spec (lines : List String) (q : String) (i : Nat)
    (h : findTaskLine lines q = some i) :
    i < lines.length ∧ taskText (lines.getD i "") = some q ∧
      ∀ j, j < i → taskText (lines.getD j "") ≠ some q := by
  obtain ⟨_, h2, h3, h4⟩ := findTaskLineAux_some_spec q lines 0 i h
  exact ⟨by simpa using h2, by simpa using h3, fun j hj => by simpa using h4 j (by omega)⟩

/-- A matching line guarantees _find_task_line succeeds, at an index
no later than the matching line. -/
theorem findTaskLine_exists_le (lines : List String) (q : String) (j : Nat)
    (hj : j < lines.length) (hq : taskText (lines.getD j "") = some q) :
    ∃ i, findTaskLine lines q = some i ∧ i ≤ j := by
  obtain ⟨i, hi, hle⟩ := findTaskLineAux_exists_le q lines 0 j hj hq
  exact ⟨i, hi, by omega⟩

/-! ### Section parser invariants -/

/-- Well-formed chained section list: each section's range is ordered,
consecutive sections are contiguous and the last section ends at the
last line (total = number of lines). -/
def ChainOK (total : Nat) : List Section → Prop
  | [] => True
  | [s] => s.start ≤ s.endIdx ∧ s.endIdx + 1 = total
  | s :: t :: rest => s.start ≤ s.endIdx ∧ t.start = s.endIdx + 1 ∧ ChainOK total (t :: rest)

theorem drop_cons_facts {α : Type} (d : α) :
    ∀ (L : List α) (i : Nat) (a : α) (r : List α), L.drop i = a :: r →
      L.getD i d = a ∧ L.drop (i + 1) = r := by
  intro L
  induction L with
  | nil => intro i a r h; simp at h
  | cons x xs ih =>
    intro i a r h
    cases i with
    | zero =>
      simp only [List.drop_zero] at h
      cases h
      exact ⟨rfl, by simp⟩
    | succ i' =>
      simp only [List.drop_succ_cons] at h
      obtain ⟨h1, h2⟩ := ih i' a r h
      exact ⟨by simpa using h1, by simpa using h2⟩

theorem parseSectionsAux_append (total : Nat) :
    ∀ (ls : List String) (i : Nat) (cur : Option Section) (acc : List Section),
      parseSectionsAux total ls i cur acc = acc ++ parseSectionsAux total ls i cur [] := by
  intro ls
  induction ls with
  | nil =>
    intro i cur acc
    cases cur <;> simp [parseSectionsAux]
  | cons line rest ih =>
    intro i cur acc
    by_cases h : isH2 line
    · cases cur with
      | none =>
        simp only [parseSectionsAux, if_pos h]
        rw [ih (i + 1) (some ⟨stripHashTitle line, i, total - 1⟩) acc]
      | some c =>
        simp only [parseSectionsAux, if_pos h]
        rw [ih (i + 1) (some ⟨stripHashTitle line, i, total - 1⟩)
              (acc ++ [({ c with endIdx := i - 1 } : Section)]),
            ih (i + 1) (some ⟨stripHashTitle line, i, total - 1⟩)
              ([] ++ [({ c with endIdx := i - 1 } : Section)])]
        simp
    · simp only [parseSectionsAux, if_neg h]
      rw [ih (i + 1) cur acc]

/-- The central invariant of the _parse_sections loop: starting from a
well-placed open section, the remaining run produces a chained list,
every produced section starts at a ## line, and when a section is open
its title and start survive as the head of the output. -/
theorem parseSectionsAux_spec (L : List String) :
    ∀ (ls : List String) (i : Nat) (cur : Option Section),
      ls = L.drop i →
      (∀ c, cur = some c → c.start < i ∧ c.start < L.length ∧
        c.endIdx + 1 = L.length ∧ isH2 (L.getD c.start "") = true) →
      ChainOK L.length (parseSectionsAux L.length ls i cur []) ∧
      (∀ s ∈ parseSectionsAux L.length ls i cur [], isH2 (L.getD s.start "") = true) ∧
      (∀ c, cur = some c → ∃ e rest2,
        parseSectionsAux L.length ls i cur [] =
          { title := c.title, start := c.start, endIdx := e } :: rest2) := by
  intro ls
  induction ls with
  | nil =>
    intro i cur hdrop hcur
    cases cur with
    | none => simp [parseSectionsAux, ChainOK]
    | some c =>
      obtain ⟨h1, h2, h3, h4⟩ := hcur c rfl
      refine ⟨?_, ?_, ?_⟩
      · simp only [parseSectionsAux, List.nil_append, ChainOK]
        omega
      · intro s hs
        simp only [parseSectionsAux, List.nil_append, List.mem_singleton] at hs
        subst hs
        exact h4
      · intro c2 hc2
        cases hc2
        exact ⟨c.endIdx, [], rfl⟩
  | cons line rest ih =>
    intro i cur hdrop hcur
    have hi : i < L.length := by
      by_contra hge
      push_neg at hge
      rw [List.drop_eq_nil_of_le hge] at hdrop
      simp at hdrop
    obtain ⟨hline, hrest⟩ := drop_cons_facts "" L i line rest hdrop.symm
    by_cases h2 : isH2 line
    · have hnewinv : ∀ c, some (⟨stripHashTitle line, i, L.length - 1⟩ : Section) = some c →
          c.start < i + 1 ∧ c.start < L.length ∧ c.endIdx + 1 = L.length ∧
            isH2 (L.getD c.start "") = true := by
        intro c hc
        cases hc
        refine ⟨?_, ?_, ?_, ?_⟩
        · show i < i + 1
          omega
        · exact hi
        · show (L.length - 1) + 1 = L.length
          omega
        · show isH2 (L.getD i "") = true
          rw [hline]
          exact h2
      cases cur with
      | none =>
        simp only [parseSectionsAux, if_pos h2]
        obtain ⟨g1, g2, _⟩ := ih (i + 1) (some ⟨stripHashTitle line, i, L.length - 1⟩)
          hrest.symm hnewinv
        exact ⟨g1, g2, fun c hc => by cases hc⟩
      | some c =>
        obtain ⟨k1, k2, k3, k4⟩ := hcur c rfl
        obtain ⟨g1, g2, g3⟩ := ih (i + 1) (some ⟨stripHashTitle line, i, L.length - 1⟩)
          hrest.symm hnewinv
        obtain ⟨e, rest2, hshape⟩ := g3 _ rfl
        have hres : parseSectionsAux L.length (line :: rest) i (some c) [] =
            { c with endIdx := i - 1 } ::
              parseSectionsAux L.length rest (i + 1)
                (some ⟨stripHashTitle line, i, L.length - 1⟩) [] := by
          simp only [parseSectionsAux, if_pos h2, List.nil_append]
          rw [parseSectionsAux_append L.length rest (i + 1)
                (some ⟨stripHashTitle line, i, L.length - 1⟩) [{ c with endIdx := i - 1 }]]
          simp
        refine ⟨?_, ?_, ?_⟩
        · rw [hres, hshape, ChainOK]
          refine ⟨by simp; omega, by simp; omega, ?_⟩
          rw [← hshape]
          exact g1
        · intro s hs
          rw [hres] at hs
          rcases List.mem_cons.mp hs with hs1 | hs2
          · subst hs1
            exact k4
          · exact g2 s hs2
        · intro c2 hc2
          cases hc2
          rw [hres]
          exact ⟨i - 1, _, rfl⟩
    · simp only [parseSectionsAux, if_neg h2]
      refine ih (i + 1) cur hrest.symm ?_
      intro c hc
      obtain ⟨k1, k2, k3, k4⟩ := hcur c hc
      exact ⟨by omega, k2, k3, k4⟩

/-- _parse_sections produces a chained section list whose sections all
start on ## lines. -/
theorem parseSections_spec (lines : List String) :
    ChainOK lines.length (parseSections lines) ∧
    ∀ s ∈ parseSections lines, isH2 (lines.getD s.start "") = true := by
  obtain ⟨g1, g2, _⟩ := parseSectionsAux_spec lines lines 0 none (by simp)
    (fun c hc => by cases hc)
  exact ⟨g1, g2⟩

theorem chainOK_tail (total : Nat) :
    ∀ (s : Section) (l : List Section), ChainOK total (s :: l) → ChainOK total l
  | _, [], _ => trivial
  | _, _ :: _, h => h.2.2

theorem chainOK_le (total : Nat) :
    ∀ (l : List Section), ChainOK total l → ∀ s ∈ l, s.start ≤ s.endIdx
  | [] => by intro _ s hs; simp at hs
  | [s] => by
    intro h t ht
    simp only [List.mem_singleton] at ht
    subst ht
    exact h.1
  | s :: t :: rest => by
    intro h u hu
    rcases List.mem_cons.mp hu with h1 | h2
    · subst h1; exact h.1
    · exact chainOK_le total (t :: rest) h.2.2 u h2

theorem chainOK_last (total : Nat) :
    ∀ (l : List Section), ChainOK total l → ∀ h : l ≠ [], (l.getLast h).endIdx + 1 = total
  | [] => by intro _ h; exact absurd rfl h
  | [s] => by intro hc _; simpa [List.getLast] using hc.2
  | s :: t :: rest => by
    intro hc h
    rw [List.getLast_cons (by simp)]
    exact chainOK_last total (t :: rest) hc.2.2 (by simp)

theorem chainOK_end_le (total : Nat) :
    ∀ (l : List Section), ChainOK total l → ∀ s ∈ l, s.endIdx + 1 ≤ total
  | [] => by intro _ s hs; simp at hs
  | [s] => by
    intro h t ht
    simp only [List.mem_singleton] at ht
    subst ht
    have h2 := h.2
    omega
  | s :: t :: rest => by
    intro h u hu
    rcases List.mem_cons.mp hu with h1 | h2
    · subst h1
      have ht := chainOK_end_le total (t :: rest) h.2.2 t (by simp)
      have hle := chainOK_le total (t :: rest) h.2.2 t (by simp)
      have hst := h.2.1
      omega
    · exact chainOK_end_le total (t :: rest) h.2.2 u h2

theorem chainOK_adjacent (total : Nat) :
    ∀ (l : List Section), ChainOK total l → ∀ (i : Nat) (h : i + 1 < l.length),
      (l.get ⟨i, by omega⟩).endIdx + 1 = (l.get ⟨i + 1, h⟩).start
  | [] => by intro _ i h; simp at h
  | [s] => by intro _ i h; simp at h
  | s :: t :: rest => by
    intro hc i h
    cases i with
    | zero => simpa using hc.2.1.symm
    | succ i' =>
      have := chainOK_adjacent total (t :: rest) hc.2.2 i' (by simpa using h)
      simpa using this

theorem chainOK_head_lt (total : Nat) :
    ∀ (l : List Section) (s : Section), ChainOK total (s :: l) →
      ∀ (j : Nat) (hj : j < l.length), s.endIdx < (l.get ⟨j, hj⟩).start
  | [], _ => by intro _ j hj; simp at hj
  | t :: rest, s => by
    intro hc j hj
    cases j with
    | zero =>
      have := hc.2.1
      simp only [List.get]
      omega
    | succ j' =>
      have ht := chainOK_head_lt total rest t hc.2.2 j' (by simpa using hj)
      have hle := chainOK_le total (t :: rest) hc.2.2 t (by simp)
      have h2 := hc.2.1
      simp only [List.get] at ht ⊢
      omega

theorem chainOK_lt (total : Nat) :
    ∀ (l : List Section), ChainOK total l →
      ∀ (i j : Nat) (hi : i < l.length) (hj : j < l.length), i < j →
        (l.get ⟨i, hi⟩).endIdx < (l.get ⟨j, hj⟩).start
  | [] => by intro _ i j hi; simp at hi
  | s :: rest => by
    intro hc i j hi hj hij
    cases i with
    | zero =>
      cases j with
      | zero => omega
      | succ j' =>
        have := chainOK_head_lt total rest s hc j' (by simpa using hj)
        simpa using this
    | succ i' =>
      cases j with
      | zero => omega
      | succ j' =>
        have := chainOK_lt total rest (chainOK_tail total s rest hc) i' j'
          (by simpa using hi) (by simpa using hj) (by omega)
        simpa using this

theorem sectionRangeAux_mem (pre : String) :
    ∀ (l : List Section) (st en : Nat), sectionRangeAux pre l = some (st, en) →
      ∃ s ∈ l, s.start = st ∧ s.endIdx = en := by
  intro l
  induction l with
  | nil => intro st en h; simp [sectionRangeAux] at h
  | cons sec rest ih =>
    intro st en h
    rw [sectionRangeAux] at h
    by_cases hl : strLeads sec.title pre
    · rw [if_pos hl] at h
      obtain ⟨h1, h2⟩ := Prod.mk.injEq .. ▸ Option.some_inj.mp h
      exact ⟨sec, by simp, h1.symm ▸ rfl, h2.symm ▸ rfl⟩
    · rw [if_neg hl] at h
      obtain ⟨s, hs, h1, h2⟩ := ih st en h
      exact ⟨s, by simp [hs], h1, h2⟩

/-- A range returned by _section_range is an actual parsed section's
range; in particular start ≤ end and end + 1 ≤ number of lines. -/
theorem sectionRange_bounds (lines : List String) (pre : String) (st en : Nat)
    (h : sectionRange lines pre = some (st, en)) :
    st ≤ en ∧ en + 1 ≤ lines.length := by
  obtain ⟨s, hs, h1, h2⟩ := sectionRangeAux_mem pre (parseSections lines) st en h
  obtain ⟨hchain, _⟩ := parseSections_spec lines
  subst h1
  subst h2
  exact ⟨chainOK_le _ _ hchain s hs, chainOK_end_le _ _ hchain s hs⟩

/-- C9: the sections produced by _parse_sections are contiguous (each
ends one line before the next section's heading), their ranges are
ordered and non-overlapping, the last section ends at the last line of
the file, and a line with no ## heading at or before it — a line
before the first heading — belongs to no section. -/
theorem claim_c9_sections_invariant (lines : List String) :
    (∀ (i : Nat) (h : i + 1 < (parseSections lines).length),
      ((parseSections lines).get ⟨i, by omega⟩).endIdx + 1 =
        ((parseSections lines).get ⟨i + 1, h⟩).start) ∧
    (∀ s ∈ parseSections lines, s.start ≤ s.endIdx) ∧
    (∀ h : parseSections lines ≠ [],
      ((parseSections lines).getLast h).endIdx = lines.length - 1) ∧
    (∀ (i j : Nat) (hi : i < (parseSections lines).length)
        (hj : j < (parseSections lines).length), i < j →
      ((parseSections lines).get ⟨i, hi⟩).endIdx <
        ((parseSections lines).get ⟨j, hj⟩).start) ∧
    (∀ j : Nat, (∀ k, k ≤ j → isH2 (lines.getD k "") = false) →
      ∀ s ∈ parseSections lines, ¬(s.start ≤ j ∧ j ≤ s.endIdx)) := by
  obtain ⟨hchain, hH2⟩ := parseSections_spec lines
  refine ⟨chainOK_adjacent _ _ hchain, chainOK_le _ _ hchain, ?_,
    chainOK_lt _ _ hchain, ?_⟩
  · intro h
    have := chainOK_last _ _ hchain h
    omega
  · rintro j hj s hs ⟨hs1, _⟩
    have hH := hH2 s hs
    rw [hj s.start hs1] at hH
    cases hH

/-- Witness for C9 on a concrete four-line document whose first line
precedes the first heading. -/
theorem claim_c9_witness :
    ((parseSections ["x", "## A", "y", "## B"]).getLast (by decide)).endIdx =
      (["x", "## A", "y", "## B"] : List String).length - 1 ∧
    ∀ s ∈ parseSections ["x", "## A", "y", "## B"], ¬(s.start ≤ 0 ∧ 0 ≤ s.endIdx) :=
  ⟨(claim_c9_sections_invariant ["x", "## A", "y", "## B"]).2.2.1 _,
   (claim_c9_sections_invariant ["x", "## A", "y", "## B"]).2.2.2.2 0 (by decide)⟩

/-! ### Task iteration and rollover helper lemmas -/

theorem getD_mem_of_lt {α : Type} (d : α) :
    ∀ (l : List α) (n : Nat), n < l.length → l.getD n d ∈ l := by
  intro l
  induction l with
  | nil => intro n h; simp at h
  | cons x xs ih =>
    intro n h
    cases n with
    | zero => simp
    | succ n' =>
      simp only [List.getD_cons_succ]
      exact List.mem_cons_of_mem _ (ih n' (by simpa using h))

theorem mem_range'_bounds :
    ∀ (n s m : Nat), m ∈ List.range' s n → s ≤ m ∧ m < s + n := by
  intro n
  induction n with
  | zero => intro s m h; simp [List.range'] at h
  | succ n' ih =>
    intro s m h
    rw [List.range'] at h
    rcases List.mem_cons.mp h with h1 | h2
    · omega
    · have := ih (s + 1) m h2
      omega

theorem iterTasksAux_mem_idx (lines : List String) (parent : String) :
    ∀ (idxs : List Nat) (sub : Option String) (t : TaskItem),
      t ∈ iterTasksAux lines parent idxs sub → t.line_index ∈ idxs := by
  intro idxs
  induction idxs with
  | nil => intro sub t ht; simp [iterTasksAux] at ht
  | cons idx rest ih =>
    intro sub t ht
    simp only [iterTasksAux] at ht
    by_cases h3 : isH3 (lines.getD idx "")
    · rw [if_pos h3] at ht
      exact List.mem_cons_of_mem _ (ih _ t ht)
    · rw [if_neg h3] at ht
      cases hm : matchTask (lines.getD idx "") with
      | some p =>
        obtain ⟨mark, g2⟩ := p
        rw [hm] at ht
        rcases List.mem_cons.mp ht with h1 | h2
        · subst h1
          simp
        · exact List.mem_cons_of_mem _ (ih _ t h2)
      | none =>
        rw [hm] at ht
        exact List.mem_cons_of_mem _ (ih _ t ht)

/-- Every task produced by _iter_tasks lies inside the queried range. -/
theorem iterTasks_bounds (lines : List String) (st en : Nat) (parent : String)
    (t : TaskItem) (h : t ∈ iterTasks lines st en parent) :
    st ≤ t.line_index ∧ t.line_index ≤ en := by
  have := mem_range'_bounds (en + 1 - st) st t.line_index
    (iterTasksAux_mem_idx lines parent _ none t h)
  omega

/-- A task line with a rolled status contributes its stripped text to
the rollover selection. -/
theorem rolloverTexts_mem (lines : List String) (l : String) (hl : l ∈ lines)
    (mark g2 : String) (hm : matchTask l = some (mark, g2))
    (hst : statusForMark mark = "todo" ∨ statusForMark mark = "partial" ∨
      statusForMark mark = "in_progress") :
    pyStrip g2 ∈ rolloverTexts lines := by
  refine List.mem_filterMap.mpr ⟨l, hl, ?_⟩
  rw [hm]
  rcases hst with h | h | h <;> simp [h]

/-- Computation of set_task_status on the success path. -/
theorem set_task_status_updated (lines : List String) (q status : String) (idx : Nat)
    (hfind : findTaskLine lines q = some idx) (mark g2 : String)
    (hm : matchTask (lines.getD idx "") = some (mark, g2)) :
    set_task_status (some lines) q status =
      (SetResult.updated idx,
       some (lines.set idx ("- " ++ markForStatus status ++ " " ++ g2))) := by
  show (match findTaskLine lines q with
    | none => (SetResult.taskNotFound, some lines)
    | some idx =>
      match matchTask (lines.getD idx "") with
      | some (_, g2) =>
        (SetResult.updated idx,
         some (lines.set idx ("- " ++ markForStatus status ++ " " ++ g2)))
      | none => (SetResult.taskNotFound, some lines)) = _
  rw [hfind]
  show (match matchTask (lines.getD idx "") with
    | some (_, g2) =>
      (SetResult.updated idx,
       some (lines.set idx ("- " ++ markForStatus status ++ " " ++ g2)))
    | none => (SetResult.taskNotFound, some lines)) = _
  rw [hm]

/-- C10: a task line placed before the first ## heading belongs to no
section, hence read_structured omits it; but _find_task_line still
locates its text (at an index no later than the line itself), so
set_task_status still updates, and rollover_incomplete still selects
the text when the status is todo/partial/in_progress — these
operations scan every line rather than only lines inside sections. -/
theorem claim_c10_headless_task (lines : List String) (j : Nat) (mark g2 : String)
    (hj : j < lines.length)
    (hnoH2 : ∀ k, k ≤ j → isH2 (lines.getD k "") = false)
    (htask : matchTask (lines.getD j "") = some (mark, g2)) :
    (∀ pl ∈ read_structured lines, ∀ t ∈ pl.tasks, t.line_index ≠ j) ∧
    (∃ i, i ≤ j ∧ findTaskLine lines (pyStrip g2) = some i) ∧
    (∀ status, ∃ idx mark2 g2b,
      matchTask (lines.getD idx "") = some (mark2, g2b) ∧
      set_task_status (some lines) (pyStrip g2) status =
        (SetResult.updated idx,
         some (lines.set idx ("- " ++ markForStatus status ++ " " ++ g2b)))) ∧
    ((statusForMark mark = "todo" ∨ statusForMark mark = "partial" ∨
        statusForMark mark = "in_progress") →
      pyStrip g2 ∈ rolloverTexts lines) := by
  have hq : taskText (lines.getD j "") = some (pyStrip g2) := by
    rw [taskText, htask]
  obtain ⟨i, hfind, hile⟩ := findTaskLine_exists_le lines (pyStrip g2) j hj hq
  refine ⟨?_, ⟨i, hile, hfind⟩, ?_, ?_⟩
  · intro pl hpl t ht
    obtain ⟨sec, hsec, rfl⟩ := List.mem_map.mp hpl
    have hb := iterTasks_bounds lines sec.start sec.endIdx sec.title t ht
    intro hcontra
    have hH := (parseSections_spec lines).2 sec hsec
    have : sec.start ≤ j := by omega
    rw [hnoH2 sec.start this] at hH
    cases hH
  · intro status
    obtain ⟨_, hti, _⟩ := findTaskLine_some_spec lines (pyStrip g2) i hfind
    have hmt : ∃ mark2 g2b, matchTask (lines.getD i "") = some (mark2, g2b) := by
      revert hti
      rw [taskText]
      cases hm : matchTask (lines.getD i "") with
      | none => intro h; simp at h
      | some p => intro _; exact ⟨p.1, p.2, by rw [← hm]⟩
    obtain ⟨mark2, g2b, hm2⟩ := hmt
    exact ⟨i, mark2, g2b, hm2,
      set_task_status_updated lines (pyStrip g2) status i hfind mark2 g2b hm2⟩
  · intro hst
    have hmem : lines.getD j "" ∈ lines := getD_mem_of_lt "" lines j hj
    exact rolloverTexts_mem lines _ hmem mark g2 htask hst

/-- Witness for C10 on a concrete document whose first line is a task
before any heading. -/
theorem claim_c10_witness :
    (∀ pl ∈ read_structured ["- [ ] 早起", "## A", "- [x] b"],
      ∀ t ∈ pl.tasks, t.line_index ≠ 0) ∧
    (∃ i, i ≤ 0 ∧ findTaskLine ["- [ ] 早起", "## A", "- [x] b"] (pyStrip "早起") = some i) ∧
    (∀ status, ∃ idx mark2 g2b,
      matchTask ((["- [ ] 早起", "## A", "- [x] b"] : List String).getD idx "") =
        some (mark2, g2b) ∧
      set_task_status (some ["- [ ] 早起", "## A", "- [x] b"]) (pyStrip "早起") status =
        (SetResult.updated idx,
         some ((["- [ ] 早起", "## A", "- [x] b"] : List String).set idx
           ("- " ++ markForStatus status ++ " " ++ g2b)))) ∧
    ((statusForMark "[ ]" = "todo" ∨ statusForMark "[ ]" = "partial" ∨
        statusForMark "[ ]" = "in_progress") →
      pyStrip "早起" ∈ rolloverTexts ["- [ ] 早起", "## A", "- [x] b"]) :=
  claim_c10_headless_task ["- [ ] 早起", "## A", "- [x] b"] 0 "[ ]" "早起"
    (by decide) (by decide) (by decide)

/-! ### Insertion point characterization -/

theorem range'_snoc : ∀ (n s : Nat), List.range' s (n + 1) = List.range' s n ++ [s + n] := by
  intro n
  induction n with
  | zero => intro s; simp [List.range']
  | succ n' ih =>
    intro s
    show s :: List.range' (s + 1) (n' + 1) = List.range' s (n' + 1) ++ [s + (n' + 1)]
    rw [ih (s + 1)]
    show s :: (List.range' (s + 1) n' ++ [s + 1 + n']) =
      (s :: List.range' (s + 1) n') ++ [s + (n' + 1)]
    simp [Nat.add_assoc, Nat.add_comm 1 n']

/-- What the backward scan for i in range(end, start, -1) computes:
either the greatest non-blank index in (start, start+n], or none when
all those lines are blank. -/
theorem firstTruthy_rev_spec (lines : List String) :
    ∀ (n st : Nat),
      (∀ i, firstTruthy lines (List.range' (st + 1) n).reverse = some i →
        st < i ∧ i ≤ st + n ∧ pyStrip (lines.getD i "") ≠ "" ∧
          ∀ j, i < j → j ≤ st + n → pyStrip (lines.getD j "") = "") ∧
      (firstTruthy lines (List.range' (st + 1) n).reverse = none →
        ∀ j, st < j → j ≤ st + n → pyStrip (lines.getD j "") = "") := by
  intro n
  induction n with
  | zero =>
    intro st
    constructor
    · intro i h; simp [List.range', firstTruthy] at h
    · intro _ j h1 h2; omega
  | succ n' ih =>
    intro st
    have hsplit : (List.range' (st + 1) (n' + 1)).reverse =
        (st + 1 + n') :: (List.range' (st + 1) n').reverse := by
      rw [range'_snoc]
      simp
    constructor
    · intro i h
      rw [hsplit, firstTruthy] at h
      by_cases hb : pyStrip (lines.getD (st + 1 + n') "") ≠ ""
      · rw [if_pos hb] at h
        obtain rfl : st + 1 + n' = i := Option.some_inj.mp h
        refine ⟨by omega, by omega, hb, ?_⟩
        intro j hj1 hj2
        omega
      · rw [if_neg hb] at h
        obtain ⟨g1, g2, g3, g4⟩ := (ih st).1 i h
        refine ⟨g1, by omega, g3, ?_⟩
        intro j hj1 hj2
        by_cases hje : j = st + 1 + n'
        · subst hje
          exact not_ne_iff.mp hb
        · exact g4 j hj1 (by omega)
    · intro h j hj1 hj2
      rw [hsplit, firstTruthy] at h
      by_cases hb : pyStrip (lines.getD (st + 1 + n') "") ≠ ""
      · rw [if_pos hb] at h
        cases h
      · rw [if_neg hb] at h
        by_cases hje : j = st + 1 + n'
        · subst hje
          exact not_ne_iff.mp hb
        · exact (ih st).2 h j hj1 (by omega)

/-- The insertion index of add_task / append_note: one past the last
non-blank line strictly inside (start, end], or the recorded end index
when all those lines are blank. -/
theorem insertPos_spec (lines : List String) (st en : Nat) (hse : st ≤ en) :
    (∃ i, st < i ∧ i ≤ en ∧ pyStrip (lines.getD i "") ≠ "" ∧
       (∀ j, i < j → j ≤ en → pyStrip (lines.getD j "") = "") ∧
       insertPos lines st en = i + 1) ∨
    ((∀ j, st < j → j ≤ en → pyStrip (lines.getD j "") = "") ∧
       insertPos lines st en = en) := by
  have hn : st + (en - st) = en := by omega
  cases hf : firstTruthy lines (List.range' (st + 1) (en - st)).reverse with
  | some i =>
    obtain ⟨g1, g2, g3, g4⟩ := (firstTruthy_rev_spec lines (en - st) st).1 i hf
    left
    refine ⟨i, g1, by omega, g3, fun j h1 h2 => g4 j h1 (by omega), ?_⟩
    rw [insertPos, hf]
  | none =>
    right
    refine ⟨fun j h1 h2 => (firstTruthy_rev_spec lines (en - st) st).2 hf j h1 (by omega), ?_⟩
    rw [insertPos, hf]

theorem insertPos_le (lines : List String) (st en : Nat) (hse : st ≤ en) :
    insertPos lines st en ≤ en + 1 := by
  rcases insertPos_spec lines st en hse with ⟨i, _, g2, _, _, g5⟩ | ⟨_, g2⟩ <;> omega

theorem add_task_eq (lines : List String) (secPre txt status : String) (st en : Nat)
    (h : sectionRange lines secPre = some (st, en)) :
    add_task (some lines) secPre txt status =
      (AddResult.inserted (insertPos lines st en),
       some (pyInsert lines (insertPos lines st en)
         ("- " ++ markForStatus status ++ " " ++ txt))) := by
  show (match sectionRange lines secPre with
    | none => (AddResult.sectionNotFound, some lines)
    | some (st, en) =>
      (AddResult.inserted (insertPos lines st en),
       some (pyInsert lines (insertPos lines st en)
         ("- " ++ markForStatus status ++ " " ++ txt)))) = _
  rw [h]

theorem append_note_eq (lines : List String) (secPre note : String) (st en : Nat)
    (h : sectionRange lines secPre = some (st, en)) :
    append_note (some lines) secPre note =
      (NoteResult.appended (insertPos lines st en),
       some (pyInsert lines (insertPos lines st en) ("- " ++ note))) := by
  show (match sectionRange lines secPre with
    | none => (NoteResult.sectionNotFound, some lines)
    | some (st, en) =>
      (NoteResult.appended (insertPos lines st en),
       some (pyInsert lines (insertPos lines st en) ("- " ++ note)))) = _
  rw [h]

/-- C2, counterexample: on a section that is empty apart from one
blank line before the next heading, add_task inserts at the recorded
end index, which places the new task before that blank line — not as
the section's last line immediately before the next heading, which
would have produced the second list below. -/
theorem claim_c2_counterexample :
    add_task (some ["## 🎯 A", "", "## B"]) "🎯" "t" "todo" =
      (AddResult.inserted 1, some ["## 🎯 A", "- [ ] t", "", "## B"]) ∧
    (["## 🎯 A", "- [ ] t", "", "## B"] : List String) ≠
      ["## 🎯 A", "", "- [ ] t", "## B"] :=
  ⟨by decide, by decide⟩

/-- C2, amended: add_task inserts the new task line immediately after
the last non-blank line strictly inside the section's range (so
trailing blank lines come after it); when every line strictly between
the heading and the end boundary is blank, it falls back to inserting
at the section's recorded end index — the new line takes the place of
the line previously at that index (a trailing blank line, or the
heading itself when end = start), which then follows it, so the new
line need not sit immediately before the next heading. -/
theorem claim_c2_add_task_insertion (lines : List String) (secPre txt status : String)
    (st en : Nat) (h : sectionRange lines secPre = some (st, en)) :
    ∃ p, add_task (some lines) secPre txt status =
        (AddResult.inserted p,
         some (lines.take p ++ ("- " ++ markForStatus status ++ " " ++ txt) :: lines.drop p)) ∧
      ((∃ i, st < i ∧ i ≤ en ∧ pyStrip (lines.getD i "") ≠ "" ∧
          (∀ j, i < j → j ≤ en → pyStrip (lines.getD j "") = "") ∧ p = i + 1) ∨
       ((∀ j, st < j → j ≤ en → pyStrip (lines.getD j "") = "") ∧ p = en)) := by
  obtain ⟨hse, hlen⟩ := sectionRange_bounds lines secPre st en h
  refine ⟨insertPos lines st en, add_task_eq lines secPre txt status st en h, ?_⟩
  rcases insertPos_spec lines st en hse with ⟨i, g1, g2, g3, g4, g5⟩ | ⟨g1, g2⟩
  · exact Or.inl ⟨i, g1, g2, g3, g4, g5⟩
  · exact Or.inr ⟨g1, g2⟩

/-- Witness for C2's amended theorem: a section whose last non-blank
line is followed by a trailing blank line before the next heading. -/
theorem claim_c2_witness :
    ∃ p, add_task (some ["## 🎯 A", "- [x] a", "", "## B"]) "🎯" "t" "todo" =
        (AddResult.inserted p,
         some ((["## 🎯 A", "- [x] a", "", "## B"] : List String).take p ++
           ("- " ++ markForStatus "todo" ++ " " ++ "t") ::
             (["## 🎯 A", "- [x] a", "", "## B"] : List String).drop p)) ∧
      ((∃ i, 0 < i ∧ i ≤ 2 ∧
          pyStrip ((["## 🎯 A", "- [x] a", "", "## B"] : List String).getD i "") ≠ "" ∧
          (∀ j, i < j → j ≤ 2 →
            pyStrip ((["## 🎯 A", "- [x] a", "", "## B"] : List String).getD j "") = "") ∧
          p = i + 1) ∨
       ((∀ j, 0 < j → j ≤ 2 →
          pyStrip ((["## 🎯 A", "- [x] a", "", "## B"] : List String).getD j "") = "") ∧
        p = 2)) := by
  have h : sectionRange ["## 🎯 A", "- [x] a", "", "## B"] "🎯" = some (0, 2) := by decide
  have := claim_c2_add_task_insertion ["## 🎯 A", "- [x] a", "", "## B"] "🎯" "t" "todo" 0 2 h
  simpa using this

/-- C5: on success — the file exists and the section prefix matches —
add_task and append_note each splice exactly one new line into the
document: the length grows by one, and erasing the inserted index
gives back the original document, so every pre-existing line is
byte-identical and keeps its relative order. -/
theorem claim_c5_insert_frame (lines : List String) (secPre txt status note : String)
    (st en : Nat) (h : sectionRange lines secPre = some (st, en)) :
    (∃ p newLines,
      add_task (some lines) secPre txt status = (AddResult.inserted p, some newLines) ∧
      p ≤ lines.length ∧
      newLines = lines.take p ++ ("- " ++ markForStatus status ++ " " ++ txt) :: lines.drop p ∧
      newLines.length = lines.length + 1 ∧ newLines.eraseIdx p = lines) ∧
    (∃ p newLines,
      append_note (some lines) secPre note = (NoteResult.appended p, some newLines) ∧
      p ≤ lines.length ∧
      newLines = lines.take p ++ ("- " ++ note) :: lines.drop p ∧
      newLines.length = lines.length + 1 ∧ newLines.eraseIdx p = lines) := by
  obtain ⟨hse, hlen⟩ := sectionRange_bounds lines secPre st en h
  have hp : insertPos lines st en ≤ lines.length := by
    have := insertPos_le lines st en hse
    omega
  constructor
  · exact ⟨insertPos lines st en, _, add_task_eq lines secPre txt status st en h, hp, rfl,
      pyInsert_length lines _ _, pyInsert_eraseIdx lines _ _ hp⟩
  · exact ⟨insertPos lines st en, _, append_note_eq lines secPre note st en h, hp, rfl,
      pyInsert_length lines _ _, pyInsert_eraseIdx lines _ _ hp⟩

/-- Witness for C5 at a concrete document. -/
theorem claim_c5_witness :
    (∃ p newLines,
      add_task (some ["## 🎯 A", "- [x] a", "", "## B"]) "🎯" "t" "todo" =
        (AddResult.inserted p, some newLines) ∧
      p ≤ (["## 🎯 A", "- [x] a", "", "## B"] : List String).length ∧
      newLines = (["## 🎯 A", "- [x] a", "", "## B"] : List String).take p ++
        ("- " ++ markForStatus "todo" ++ " " ++ "t") ::
          (["## 🎯 A", "- [x] a", "", "## B"] : List String).drop p ∧
      newLines.length = (["## 🎯 A", "- [x] a", "", "## B"] : List String).length + 1 ∧
      newLines.eraseIdx p = ["## 🎯 A", "- [x] a", "", "## B"]) ∧
    (∃ p newLines,
      append_note (some ["## 🎯 A", "- [x] a", "", "## B"]) "🎯" "备注" =
        (NoteResult.appended p, some newLines) ∧
      p ≤ (["## 🎯 A", "- [x] a", "", "## B"] : List String).length ∧
      newLines = (["## 🎯 A", "- [x] a", "", "## B"] : List String).take p ++
        ("- " ++ "备注") :: (["## 🎯 A", "- [x] a", "", "## B"] : List String).drop p ∧
      newLines.length = (["## 🎯 A", "- [x] a", "", "## B"] : List String).length + 1 ∧
      newLines.eraseIdx p = ["## 🎯 A", "- [x] a", "", "## B"]) :=
  claim_c5_insert_frame ["## 🎯 A", "- [x] a", "", "## B"] "🎯" "t" "todo" "备注" 0 2
    (by decide)

/-! ### Rollover theorems -/

/-- A line contributing to the rollover selection: it matches
TASK_MARK_RE and its status is todo, partial or in_progress. -/
def isIncompleteLine (line : String) : Bool :=
  match matchTask line with
  | some (mark, _) =>
    let status := statusForMark mark
    status = "todo" || status = "partial" || status = "in_progress"
  | none => false

/-- The rollover selection is exactly the stripped texts of the task
lines with an incomplete status, in document order: done, cancelled
and need_help lines (and non-task lines) contribute nothing. -/
theorem rolloverTexts_eq_filter (lines : List String) :
    rolloverTexts lines = (lines.filter isIncompleteLine).filterMap taskText := by
  induction lines with
  | nil => rfl
  | cons l rest ih =>
    rw [rolloverTexts] at ih ⊢
    rw [List.filterMap_cons, List.filter_cons]
    cases hm : matchTask l with
    | none =>
      have hi : isIncompleteLine l = false := by rw [isIncompleteLine, hm]
      rw [hi]
      simp only [Bool.false_eq_true, if_false]
      exact ih
    | some p =>
      obtain ⟨mark, g2⟩ := p
      have hi : isIncompleteLine l =
          ((statusForMark mark = "todo" : Bool) || statusForMark mark = "partial" ||
            statusForMark mark = "in_progress") := by
        rw [isIncompleteLine, hm]
      have ht : taskText l = some (pyStrip g2) := by rw [taskText, hm]
      rw [hi]
      cases hb : ((statusForMark mark = "todo" : Bool) || statusForMark mark = "partial" ||
          statusForMark mark = "in_progress") with
      | true =>
        simp only [hb, if_true, List.filterMap_cons, ht]
        rw [ih]
      | false =>
        simp only [hb, Bool.false_eq_true, if_false]
        exact ih

theorem rolloverDest_le (base : List String) : rolloverDest base ≤ base.length := by
  rw [rolloverDest]
  cases h1 : sectionRange base "🎯" with
  | some rng =>
    obtain ⟨st, en⟩ := rng
    have := sectionRange_bounds base "🎯" st en h1
    show en + 1 ≤ base.length
    omega
  | none =>
    cases h2 : sectionRange base "今日重点任务" with
    | some rng =>
      obtain ⟨st, en⟩ := rng
      have := sectionRange_bounds base "今日重点任务" st en h2
      show en + 1 ≤ base.length
      omega
    | none => exact Nat.le_refl _

/-- C1: rollover_incomplete collects exactly the task lines whose
status is todo, partial or in_progress, appends their texts as plain
'- [ ] text' lines into tomorrow's file as one contiguous block in the
original document order (status and subsection discarded), reports
moved as the number of selected tasks, and leaves the source (today's)
file unchanged. -/
theorem claim_c1_rollover_selection (s : DayFiles) (L : List String)
    (h : s.today = some L) :
    (rollover_incomplete s).2.today = some L ∧
    (rollover_incomplete s).1 = { moved := (rolloverTexts L).length, errorFlag := false } ∧
    rolloverTexts L = (L.filter isIncompleteLine).filterMap taskText ∧
    ∃ p base,
      base = (match s.tomorrow with
        | some b => b
        | none => FALLBACK_TEMPLATE_LINES) ∧
      p ≤ base.length ∧
      (rollover_incomplete s).2.tomorrow =
        some (base.take p ++ (rolloverTexts L).map (fun t => "- [ ] " ++ t) ++
          base.drop p) := by
  obtain ⟨td, tm⟩ := s
  simp only at h
  subst h
  refine ⟨rfl, rfl, rolloverTexts_eq_filter L, ?_⟩
  refine ⟨rolloverDest (match tm with
      | some b => b
      | none => FALLBACK_TEMPLATE_LINES),
    (match tm with
      | some b => b
      | none => FALLBACK_TEMPLATE_LINES), rfl, rolloverDest_le _, ?_⟩
  show some (insertAllFrom _ _ ((rolloverTexts L).map (fun t => "- [ ] " ++ t))) = _
  rw [insertAllFrom_eq _ _ _ (rolloverDest_le _)]

/-- Witness for C1 at a concrete pair of documents. -/
theorem claim_c1_witness :
    (rollover_incomplete ⟨some ["- [ ] a", "- [x] b", "- [>] c"], some ["## 🎯 X", "- d"]⟩).2.today =
      some ["- [ ] a", "- [x] b", "- [>] c"] ∧
    (rollover_incomplete ⟨some ["- [ ] a", "- [x] b", "- [>] c"], some ["## 🎯 X", "- d"]⟩).1 =
      { moved := (rolloverTexts ["- [ ] a", "- [x] b", "- [>] c"]).length, errorFlag := false } ∧
    rolloverTexts ["- [ ] a", "- [x] b", "- [>] c"] =
      ((["- [ ] a", "- [x] b", "- [>] c"] : List String).filter isIncompleteLine).filterMap taskText ∧
    ∃ p base,
      base = (match (some ["## 🎯 X", "- d"] : Option (List String)) with
        | some b => b
        | none => FALLBACK_TEMPLATE_LINES) ∧
      p ≤ base.length ∧
      (rollover_incomplete ⟨some ["- [ ] a", "- [x] b", "- [>] c"], some ["## 🎯 X", "- d"]⟩).2.tomorrow =
        some (base.take p ++
          (rolloverTexts ["- [ ] a", "- [x] b", "- [>] c"]).map (fun t => "- [ ] " ++ t) ++
          base.drop p) :=
  claim_c1_rollover_selection ⟨some ["- [ ] a", "- [x] b", "- [>] c"], some ["## 🎯 X", "- d"]⟩
    ["- [ ] a", "- [x] b", "- [>] c"] rfl

/-- C7: rollover_incomplete locates the destination in tomorrow's file
by title prefix, trying the emoji marker first and the literal text
marker second, and appends the rolled block at the absolute end of the
document when neither matches; on the three-task scenario document the
new tomorrow file has moved = 2 and carries '- [ ] 阅读' then
'- [ ] 写周报' at lines 9 and 10, inside its priority-tasks section
(range 4 to 10). -/
theorem claim_c7_rollover_destination (s : DayFiles) (L base : List String)
    (htoday : s.today = some L) (htom : s.tomorrow = some base) :
    (∀ st en, sectionRange base "🎯" = some (st, en) →
      (rollover_incomplete s).2.tomorrow =
        some (base.take (en + 1) ++ (rolloverTexts L).map (fun t => "- [ ] " ++ t) ++
          base.drop (en + 1))) ∧
    (∀ st en, sectionRange base "🎯" = none →
      sectionRange base "今日重点任务" = some (st, en) →
      (rollover_incomplete s).2.tomorrow =
        some (base.take (en + 1) ++ (rolloverTexts L).map (fun t => "- [ ] " ++ t) ++
          base.drop (en + 1))) ∧
    (sectionRange base "🎯" = none → sectionRange base "今日重点任务" = none →
      (rollover_incomplete s).2.tomorrow =
        some (base ++ (rolloverTexts L).map (fun t => "- [ ] " ++ t))) ∧
    ((rollover_incomplete
        ⟨some ["## 🎯 今日重点任务", "- [ ] 阅读", "- [x] 跑步", "- [>] 写周报"], none⟩).1.moved = 2 ∧
     ∃ newT, (rollover_incomplete
        ⟨some ["## 🎯 今日重点任务", "- [ ] 阅读", "- [x] 跑步", "- [>] 写周报"], none⟩).2.tomorrow =
          some newT ∧
       sectionRange newT "🎯" = some (4, 10) ∧
       newT.getD 9 "" = "- [ ] 阅读" ∧ newT.getD 10 "" = "- [ ] 写周报") := by
  obtain ⟨td, tm⟩ := s
  simp only at htoday htom
  subst htoday
  subst htom
  refine ⟨?_, ?_, ?_, ?_⟩
  · intro st en h1
    have hd : rolloverDest base = en + 1 := by rw [rolloverDest, h1]
    have hle : en + 1 ≤ base.length := (sectionRange_bounds base "🎯" st en h1).2
    show some (insertAllFrom base (rolloverDest base)
      ((rolloverTexts L).map (fun t => "- [ ] " ++ t))) = _
    rw [hd, insertAllFrom_eq _ _ _ hle]
  · intro st en h1 h2
    have hd : rolloverDest base = en + 1 := by rw [rolloverDest, h1, h2]
    have hle : en + 1 ≤ base.length := (sectionRange_bounds base "今日重点任务" st en h2).2
    show some (insertAllFrom base (rolloverDest base)
      ((rolloverTexts L).map (fun t => "- [ ] " ++ t))) = _
    rw [hd, insertAllFrom_eq _ _ _ hle]
  · intro h1 h2
    have hd : rolloverDest base = base.length := by rw [rolloverDest, h1, h2]
    show some (insertAllFrom base (rolloverDest base)
      ((rolloverTexts L).map (fun t => "- [ ] " ++ t))) = _
    rw [hd, insertAllFrom_eq _ _ _ (Nat.le_refl _)]
    simp
  · exact ⟨by decide, ⟨_, rfl, by decide, by decide, by decide⟩⟩

/-- Witness for C7 at a concrete pair of documents whose destination
has an emoji-marked section. -/
theorem claim_c7_witness :
    (rollover_incomplete ⟨some ["- [ ] a"], some ["## 🎯 X"]⟩).2.tomorrow =
      some ((["## 🎯 X"] : List String).take (0 + 1) ++
        (rolloverTexts ["- [ ] a"]).map (fun t => "- [ ] " ++ t) ++
        (["## 🎯 X"] : List String).drop (0 + 1)) :=
  (claim_c7_rollover_destination ⟨some ["- [ ] a"], some ["## 🎯 X"]⟩
    ["- [ ] a"] ["## 🎯 X"] rfl rfl).1 0 0 (by decide)

/-- C3, counterexample: on a document whose matching task line is
indented, set_task_status rewrites the line to the normalized
form '- [x] 跑步', dropping the indentation — the rest of the line is
not left unchanged, which would have produced '  - [x] 跑步'. -/
theorem claim_c3_counterexample :
    set_task_status (some ["  - [>] 跑步"]) "跑步" "done" =
      (SetResult.updated 0, some ["- [x] 跑步"]) ∧
    ("- [x] 跑步" : String) ≠ "  - [x] 跑步" := by
  exact ⟨by decide, by decide⟩

/-- C3, amended: set_task_status resolves the first task line whose
parsed text equals the query and rewrites that whole line as
'- mark text' from the regex's post-bracket capture (so the bracket
mark is replaced — unknown statuses giving the todo mark — while
indentation and the spacing around the dash and bracket are
normalized, with trailing content preserved); it returns not_found
when the file is absent and task_not_found when no task matches, the
file being unchanged in the error cases. -/
theorem claim_c3_set_status (file : Option (List String)) (q status : String) :
    (file = none → set_task_status file q status = (SetResult.notFound, none)) ∧
    (∀ lines, file = some lines → findTaskLine lines q = none →
      set_task_status file q status = (SetResult.taskNotFound, some lines)) ∧
    (∀ lines idx, file = some lines → findTaskLine lines q = some idx →
      taskText (lines.getD idx "") = some q ∧
      (∀ j, j < idx → taskText (lines.getD j "") ≠ some q) ∧
      ∃ mark g2, matchTask (lines.getD idx "") = some (mark, g2) ∧ pyStrip g2 = q ∧
        set_task_status file q status =
          (SetResult.updated idx,
           some (lines.set idx ("- " ++ markForStatus status ++ " " ++ g2)))) := by
  refine ⟨?_, ?_, ?_⟩
  · intro h; rw [h]; rfl
  · intro lines hf hn
    rw [hf]
    show (match findTaskLine lines q with
      | none => (SetResult.taskNotFound, some lines)
      | some idx => _) = _
    rw [hn]
  · intro lines idx hf hs
    obtain ⟨hlt, htext, hfirst⟩ := findTaskLine_some_spec lines q idx hs
    have hmt : ∃ mark g2, matchTask (lines.getD idx "") = some (mark, g2) ∧ pyStrip g2 = q := by
      revert htext
      rw [taskText]
      cases hm : matchTask (lines.getD idx "") with
      | none => intro h; simp at h
      | some p => intro h; exact ⟨p.1, p.2, by rw [← hm], by simpa using h⟩
    obtain ⟨mark, g2, hm, hg⟩ := hmt
    refine ⟨htext, hfirst, mark, g2, hm, hg, ?_⟩
    rw [hf]
    show (match findTaskLine lines q with
      | none => (SetResult.taskNotFound, some lines)
      | some idx =>
        match matchTask (lines.getD idx "") with
        | some (_, g2) =>
          (SetResult.updated idx,
           some (lines.set idx ("- " ++ markForStatus status ++ " " ++ g2)))
        | none => (SetResult.taskNotFound, some lines)) = _
    rw [hs]
    show (match matchTask (lines.getD idx "") with
      | some (_, g2) =>
        (SetResult.updated idx,
         some (lines.set idx ("- " ++ markForStatus status ++ " " ++ g2)))
      | none => (SetResult.taskNotFound, some lines)) = _
    rw [hm]

/-- Witness for C3's amended theorem, instantiating the spec's own
scenario: '- [>] 跑步' updated to done. -/
theorem claim_c3_witness :
    taskText ((["- [>] 跑步"] : List String).getD 0 "") = some "跑步" ∧
    (∀ j, j < 0 → taskText ((["- [>] 跑步"] : List String).getD j "") ≠ some "跑步") ∧
    ∃ mark g2, matchTask ((["- [>] 跑步"] : List String).getD 0 "") = some (mark, g2) ∧
      pyStrip g2 = "跑步" ∧
      set_task_status (some ["- [>] 跑步"]) "跑步" "done" =
        (SetResult.updated 0,
         some ((["- [>] 跑步"] : List String).set 0 ("- " ++ markForStatus "done" ++ " " ++ g2))) :=
  (claim_c3_set_status (some ["- [>] 跑步"]) "跑步" "done").2.2 ["- [>] 跑步"] 0 rfl (by decide)

/-! ### The task line grammar -/

/-- A run of whitespace characters. -/
def AllWs (cs : List Char) : Prop := ∀ c ∈ cs, isWsChar c = true

/-- The claim's grammar read literally: optional leading whitespace, a
dash, whitespace, a bracketed mark, whitespace, then free text — with
the two inner whitespace runs required to be non-empty (only the
leading run is declared optional). -/
def ClaimTaskPattern (s : String) : Prop :=
  ∃ ws1 ws2 m ws3 text,
    s.data = ws1 ++ '-' :: (ws2 ++ '[' :: m :: ']' :: (ws3 ++ text)) ∧
    AllWs ws1 ∧ AllWs ws2 ∧ ws2 ≠ [] ∧ isMarkChar m = true ∧ AllWs ws3 ∧ ws3 ≠ []

/-- The grammar with every whitespace run optional, matching the \s*
occurrences of TASK_MARK_RE. -/
def AmendedTaskPattern (s : String) : Prop :=
  ∃ ws1 ws2 m ws3 text,
    s.data = ws1 ++ '-' :: (ws2 ++ '[' :: m :: ']' :: (ws3 ++ text)) ∧
    AllWs ws1 ∧ AllWs ws2 ∧ isMarkChar m = true ∧ AllWs ws3

theorem allWs_takeWhile (cs : List Char) : AllWs (cs.takeWhile isWsChar) := by
  induction cs with
  | nil => intro c hc; simp at hc
  | cons c cs' ih =>
    intro d hd
    rw [List.takeWhile_cons] at hd
    by_cases hc : isWsChar c
    · rw [if_pos hc] at hd
      rcases List.mem_cons.mp hd with h1 | h2
      · subst h1; exact hc
      · exact ih d h2
    · rw [if_neg hc] at hd
      simp at hd

theorem dropWhile_allP_append {α : Type} (p : α → Bool) :
    ∀ (as bs : List α), (∀ a ∈ as, p a = true) →
      (as ++ bs).dropWhile p = bs.dropWhile p := by
  intro as
  induction as with
  | nil => intro bs _; rfl
  | cons a as' ih =>
    intro bs h
    rw [List.cons_append, List.dropWhile_cons, if_pos (h a (by simp))]
    exact ih bs (fun x hx => h x (by simp [hx]))

theorem dropWhile_cons_of_false {α : Type} (p : α → Bool) (a : α) (l : List α)
    (h : p a = false) : (a :: l).dropWhile p = a :: l := by
  rw [List.dropWhile_cons, if_neg (by simp [h])]

/-- C4, counterexample: the code's task scanner accepts '-[x]foo' (no
whitespace after the dash or the bracket) and '- [x]foo' (none after
the bracket), while the claim's pattern — with the two inner
whitespace runs required — rejects both. -/
theorem claim_c4_counterexample :
    (matchTask "-[x]foo").isSome = true ∧ ¬ ClaimTaskPattern "-[x]foo" ∧
    (matchTask "- [x]foo").isSome = true ∧ ¬ ClaimTaskPattern "- [x]foo" := by
  refine ⟨by decide, ?_, by decide, ?_⟩
  · rintro ⟨ws1, ws2, m, ws3, text, hdata, hw1, hw2, hne2, hmark, hw3, hne3⟩
    have hd : ("-[x]foo" : String).data = ['-', '[', 'x', ']', 'f', 'o', 'o'] := rfl
    rw [hd] at hdata
    cases ws1 with
    | cons c t =>
      rw [List.cons_append] at hdata
      injection hdata with hc _
      have := hw1 c (by simp)
      rw [← hc] at this
      exact absurd this (by decide)
    | nil =>
      rw [List.nil_append] at hdata
      injection hdata with _ hdata2
      cases ws2 with
      | nil => exact hne2 rfl
      | cons c t =>
        rw [List.cons_append] at hdata2
        injection hdata2 with hc _
        have := hw2 c (by simp)
        rw [← hc] at this
        exact absurd this (by decide)
  · rintro ⟨ws1, ws2, m, ws3, text, hdata, hw1, hw2, hne2, hmark, hw3, hne3⟩
    have hd : ("- [x]foo" : String).data = ['-', ' ', '[', 'x', ']', 'f', 'o', 'o'] := rfl
    rw [hd] at hdata
    cases ws1 with
    | cons c t =>
      rw [List.cons_append] at hdata
      injection hdata with hc _
      have := hw1 c (by simp)
      rw [← hc] at this
      exact absurd this (by decide)
    | nil =>
      rw [List.nil_append] at hdata
      injection hdata with _ hdata2
      cases ws2 with
      | nil =>
        rw [List.nil_append] at hdata2
        injection hdata2 with hc _
        exact absurd hc.symm (by decide)
      | cons c t =>
        rw [List.cons_append] at hdata2
        injection hdata2 with _ hdata3
        cases t with
        | cons c2 t2 =>
          rw [List.cons_append] at hdata3
          injection hdata3 with hc2 _
          have := hw2 c2 (by simp)
          rw [← hc2] at this
          exact absurd this (by decide)
        | nil =>
          rw [List.nil_append] at hdata3
          injection hdata3 with _ hdata4
          injection hdata4 with _ hdata5
          injection hdata5 with _ hdata6
          cases ws3 with
          | nil => exact hne3 rfl
          | cons c3 t3 =>
            rw [List.cons_append] at hdata6
            injection hdata6 with hc3 _
            have := hw3 c3 (by simp)
            rw [← hc3] at this
            exact absurd this (by decide)

/-- C4, amended: the task scanner recognizes a line if and only if it
consists of optional leading whitespace, a dash, optional whitespace,
a bracket containing exactly one of the six recognized marks (space,
x, ~, !, >, ?; case-insensitive), optional whitespace, then free text
(possibly empty) to end of line; any other line, including bracketed
lines with an unrecognized mark, is not a task. -/
theorem claim_c4_task_grammar (s : String) :
    (matchTask s).isSome = true ↔ AmendedTaskPattern s := by
  constructor
  · intro h
    simp only [matchTask] at h
    split at h
    · rename_i r1 heq
      simp only [parseAfterDash] at h
      split at h
      · rename_i m r2 heq2
        by_cases hmark : isMarkChar m = true
        · have e1 : s.data = s.data.takeWhile isWsChar ++ s.data.dropWhile isWsChar :=
            (List.takeWhile_append_dropWhile isWsChar s.data).symm
          rw [heq] at e1
          have e2 : r1 = r1.takeWhile isWsChar ++ r1.dropWhile isWsChar :=
            (List.takeWhile_append_dropWhile isWsChar r1).symm
          rw [heq2] at e2
          rw [e2] at e1
          refine ⟨s.data.takeWhile isWsChar, r1.takeWhile isWsChar, m, [], r2, ?_,
            allWs_takeWhile _, allWs_takeWhile _, hmark, ?_⟩
          · simpa using e1
          · intro c hc
            simp at hc
        · rw [if_neg hmark] at h
          simp at h
      · simp at h
    · simp at h
  · rintro ⟨ws1, ws2, m, ws3, text, hdata, hw1, hw2, hmark, hw3⟩
    have h1 : s.data.dropWhile isWsChar =
        '-' :: (ws2 ++ '[' :: m :: ']' :: (ws3 ++ text)) := by
      rw [hdata, dropWhile_allP_append isWsChar ws1 _ hw1]
      exact dropWhile_cons_of_false isWsChar '-' _ (by decide)
    have h2 : (ws2 ++ '[' :: m :: ']' :: (ws3 ++ text)).dropWhile isWsChar =
        '[' :: m :: ']' :: (ws3 ++ text) := by
      rw [dropWhile_allP_append isWsChar ws2 _ hw2]
      exact dropWhile_cons_of_false isWsChar '[' _ (by decide)
    have hm : matchTask s = parseAfterDash (ws2 ++ '[' :: m :: ']' :: (ws3 ++ text)) := by
      simp only [matchTask]
      rw [h1]
      rfl
    have hp : parseAfterDash (ws2 ++ '[' :: m :: ']' :: (ws3 ++ text)) =
        some (String.mk ['[', m, ']'], String.mk ((ws3 ++ text).dropWhile isWsChar)) := by
      simp only [parseAfterDash]
      rw [h2]
      show (if isMarkChar m = true then
        some (String.mk ['[', m, ']'], String.mk ((ws3 ++ text).dropWhile isWsChar))
        else none) = _
      rw [if_pos hmark]
    rw [hm, hp]
    rfl

/-- Witness for C4's amended theorem: a concrete accepted line has the
amended decomposition. -/
theorem claim_c4_witness : AmendedTaskPattern "- [x] foo" :=
  (claim_c4_task_grammar "- [x] foo").mp (by decide)

end Daily
